import Mathlib

/-!
Verification of the `private-jets` flight-data pipeline.

This file gives a shallow embedding, in Lean, of the parts of the
repository that the checked properties talk about:

* the `Position` data model and the leg-identification state machine of
  `src/legs.rs` (`grounded_heuristic`, `landed`, `is_grounded`, the
  `Legs` iterator and the `legs` facade);
* the CO₂ formula of `src/private_emissions.rs`;
* the output row schema of `src/bin/etl_legs.rs` and the required / ready /
  completed set algebra of its `main` and `aggregate` functions;
* the cache-action selection of `src/fs.rs` and `src/trace_month.rs`;
* the snapshot selection of `src/private_jets_in_time.rs`;
* the response dispatch and trace decoding of `src/icao_to_trace.rs`.

Machine integers and floats of the source are embedded as `ℤ`/`ℕ`/`ℚ`:
the embedded code only ever compares these quantities or combines them
with exact ring operations, so ordered-field reasoning over `ℚ` models
the `f64` comparisons of the source faithfully for the inputs at stake.
Timestamps are rational numbers of seconds since the Unix epoch;
`time::Duration::minutes(5)` is `300` and `time::Duration::hours(10)` is
`36000`.
-/

namespace PrivateJets

/-- Aircraft position, from `src/legs.rs` / the `Position` data model.
`altitude = none` models the transponder declaring the aircraft grounded
(the `Grounded` variant of the `Position` enum in `src/lib.rs`). -/
structure Position where
  datetime : ℚ
  latitude : ℚ
  longitude : ℚ
  altitude : Option ℚ
deriving DecidableEq, Repr

/-- A position is flying when it carries an altitude (`Position::Flying`). -/
def Position.flying (p : Position) : Bool := p.altitude.isSome

/-- A position is grounded when it carries no altitude (`Position::Grounded`). -/
def Position.grounded (p : Position) : Bool := p.altitude.isNone

/-- The `altitude()` accessor: the altitude of a flying position, `0.0` for a
grounded one, as the `Position::altitude` accessor in `src/lib.rs` does. -/
def Position.altitudeVal (p : Position) : ℚ := p.altitude.getD 0

/-- `grounded_heuristic` of `src/legs.rs`: at least one endpoint flying, and
either more than 5 minutes of lost signal close to the ground (one altitude
below 10 000 ft) or more than 10 hours of lost signal anywhere. -/
def grounded_heuristic (previous_position position : Position) : Bool :=
  let is_flying := previous_position.flying || position.flying
  if !is_flying then false
  else
    let lost_close_to_ground :=
      decide (position.datetime - previous_position.datetime > 300) &&
        (decide (position.altitudeVal < 10000) ||
          decide (previous_position.altitudeVal < 10000))
    let lost_somewhere :=
      decide (position.datetime - previous_position.datetime > 36000)
    is_flying && (lost_close_to_ground || lost_somewhere)

/-- `landed` of `src/legs.rs`. -/
def landed (previous_position position : Position) : Bool :=
  (previous_position.flying && position.grounded) ||
    grounded_heuristic previous_position position

/-- `is_grounded` of `src/legs.rs`. -/
def is_grounded (previous_position position : Position) : Bool :=
  (previous_position.grounded && position.grounded) ||
    grounded_heuristic previous_position position

/-- The sequence after the `if !is_grounded { ... }` block of one `Legs::next`
iteration: when the transition is not grounded, the sequence (seeded with
`prev` when empty) is extended with `cur`; otherwise it is unchanged. -/
def legsSeq1 (prev : Position) (seq : List Position) (cur : Position) :
    List Position :=
  if !(is_grounded prev cur) then (if seq.isEmpty then [prev] else seq) ++ [cur]
  else seq

/-- One iteration of the `while let` loop in `Legs::next` of `src/legs.rs`:
given the previous position and the accumulated sequence, process the next
position, returning the emitted leg (if any) and the new sequence.  The
previous position always becomes `cur` afterwards. -/
def legsStep (prev : Position) (seq : List Position) (cur : Position) :
    Option (List Position) × List Position :=
  let seq1 := legsSeq1 prev seq cur
  if landed prev cur && !seq1.isEmpty then (some seq1, []) else (none, seq1)

/-- Collecting the `Legs` iterator of `src/legs.rs` from an intermediate state:
`prev` is `previous_position`, `seq` is `sequence`, and the list argument is
what remains of the underlying iterator.  When the input is exhausted the
residual non-empty sequence is emitted. -/
def legsRun (prev : Position) (seq : List Position) :
    List Position → List (List Position)
  | [] => if seq.isEmpty then [] else [seq]
  | cur :: rest =>
    match legsStep prev seq cur with
    | (some leg, seq1) => leg :: legsRun cur seq1 rest
    | (none, seq1) => legsRun cur seq1 rest

/-- The synthetic position `Legs::new` substitutes when the input iterator is
empty: Unix epoch 0, latitude 0, longitude 0, no altitude. -/
def syntheticPosition : Position := ⟨0, 0, 0, none⟩

/-- Collecting the `Legs` iterator built by `Legs::new` of `src/legs.rs`:
`previous_position` is the first input position, or the synthetic grounded
position when there is none. -/
def machineLegs : List Position → List (List Position)
  | [] => legsRun syntheticPosition [] []
  | p :: ps => legsRun p [] ps

/-- `Leg::duration` of `src/legs.rs` in seconds: last minus first timestamp.
The source unwraps first/last of a non-empty vector; all emitted legs are
non-empty, so the default never surfaces. -/
def legDuration (l : List Position) : ℚ :=
  (l.getLast?.getD syntheticPosition).datetime - (l.head?.getD syntheticPosition).datetime

/-- `Leg::distance` of `src/legs.rs`: the geo distance from the first to the
last position.  The geodesic computation lives in the external `geoutils`
crate, so it is a parameter `dist` of the embedding. -/
def legDistance (dist : Position → Position → ℚ) (l : List Position) : ℚ :=
  dist (l.head?.getD syntheticPosition) (l.getLast?.getD syntheticPosition)

/-- The public `legs` facade of `src/legs.rs`: run the state machine, then
drop legs whose duration is not above 5 minutes or whose geo distance is not
above 3 km. -/
def legs (dist : Position → Position → ℚ) (positions : List Position) :
    List (List Position) :=
  (machineLegs positions).filter fun leg =>
    decide (legDuration leg > 300) && decide (legDistance dist leg > 3)

/-- Drop the head of a leg when it coincides with the given boundary
position (the last position of the previously emitted leg). -/
def dropSharedHead : Option Position → List Position → List Position
  | some a, b :: bs => if a = b then bs else b :: bs
  | _, l => l

/-- Concatenation of a list of legs in which each leg after the first loses
its first position whenever that position equals the last position of the
preceding leg; the optional argument plays the boundary for the first leg. -/
def dcat : Option Position → List (List Position) → List Position
  | _, [] => []
  | x, l :: ls => dropSharedHead x l ++ dcat l.getLast? ls

/-! ### Calendar dates

`time::Date` is embedded as a year/month/day record; the `time` crate
compares dates in calendar order, which is lexicographic order on
`(year, month, day)` for valid dates. -/

/-- A calendar date (`time::Date`). -/
structure Date where
  year : ℤ
  month : ℕ
  day : ℕ
deriving DecidableEq, Repr

/-- Calendar (lexicographic) strict order on dates, as `time::Date`'s `Ord`. -/
def dateLtb (d e : Date) : Bool :=
  decide (d.year < e.year) ||
    (decide (d.year = e.year) &&
      (decide (d.month < e.month) ||
        (decide (d.month = e.month) && decide (d.day < e.day))))

/-- Calendar order on dates: `d ≤ e`. -/
def dateLeb (d e : Date) : Bool := dateLtb d e || decide (d = e)

/-- Number of days from the civil epoch 1970-01-01 to a date, by the standard
days-from-civil algorithm over the proleptic Gregorian calendar.  This embeds
`time::Date` subtraction: `(a - b).whole_days() = toDays a - toDays b`. -/
def toDays (d : Date) : ℤ :=
  let y : ℤ := if d.month ≤ 2 then d.year - 1 else d.year
  let era : ℤ := Int.fdiv y 400
  let yoe : ℤ := y - era * 400
  let mp : ℕ := (d.month + 9) % 12
  let doy : ℤ := (153 * (mp : ℤ) + 2) / 5 + (d.day : ℤ) - 1
  let doe : ℤ := yoe * 365 + yoe / 4 - yoe / 100 + doy
  era * 146097 + doe - 719468

/-- Absolute day distance between two dates, embedding
`(a - target).abs()` on `time::Duration`. -/
def dayDist (a target : Date) : ℤ := |toDays a - toDays target|

/-! ### Content cache actions (`src/fs.rs`) -/

/-- The `CacheAction` enumeration of `src/fs.rs`. -/
inductive CacheAction where
  | ReadFetchWrite
  | ReadFetch
  | FetchWrite
deriving DecidableEq, Repr

/-- `CacheAction::from_date` of `src/fs.rs`, with `now_utc().date()` passed
explicitly: `ReadFetch` when `date >= today`, `ReadFetchWrite` otherwise. -/
def CacheAction.from_date (date today : Date) : CacheAction :=
  if dateLeb today date then .ReadFetch else .ReadFetchWrite

/-- `first_of_next_month` of `src/trace_month.rs`: `month().next()` wraps
December to January of the next year. -/
def first_of_next_month (month : Date) : Date :=
  if month.month = 12 then ⟨month.year + 1, 1, 1⟩ else ⟨month.year, month.month + 1, 1⟩

/-- The cache action `month_positions` of `src/trace_month.rs` selects for the
per-month positions blob: `CacheAction::from_date` applied to the first day of
the next month. -/
def monthPositionsAction (month today : Date) : CacheAction :=
  CacheAction.from_date (first_of_next_month month) today

/-! ### Time-varying jet set (`src/private_jets_in_time.rs`) -/

/-- `closest_date` of `src/private_jets_in_time.rs`: fold the snapshot dates,
keeping the running date only when it is strictly closer to the target, and
seeding the fold with 1900-01-01. -/
def closest_date (dates : List Date) (target : Date) : Date :=
  dates.foldl
    (fun a b => if dayDist a target < dayDist b target then a else b)
    ⟨1900, 1, 1⟩

/-- The body of `private_jets_in_month` of `src/private_jets_in_time.rs` after
the snapshots have been loaded and filtered (by model table and optional
country): `snapshots` maps each snapshot date to its filtered aircraft set
(aircraft data abstracted to `α`), `years` are the requested years, and `now`
is today's UTC date.  Months of the requested years strictly before the first
of the current month each receive the aircraft of the snapshot at
`closest_date`.  The source unwraps the snapshot lookup; the impossible miss
is embedded as the empty contribution. -/
def private_jets_in_month (α : Type) (snapshots : List (Date × List (ℕ × α)))
    (years : List ℤ) (now : Date) : List ((ℕ × Date) × α) :=
  let nowMonth : Date := ⟨now.year, now.month, 1⟩
  let months : List Date :=
    (years.flatMap fun y => (List.range 12).map fun m => (⟨y, m + 1, 1⟩ : Date)).filter
      fun m => dateLtb m nowMonth
  months.flatMap fun m =>
    match snapshots.find? (fun s => s.1 = closest_date (snapshots.map Prod.fst) m) with
    | some s => s.2.map fun ia => ((ia.1, m), ia.2)
    | none => []

/-! ### Leg ETL orchestration (`src/bin/etl_legs.rs`) -/

/-- A work-item key: `(ICAO number, month)`.  ICAO transponder addresses are
24-bit numbers rendered as fixed-width lowercase hex, so their lexicographic
string order is their numeric order; they are embedded as naturals. -/
abbrev Key := ℕ × Date

/-- Ascending order on keys by `(month, ICAO)`, the sort key of
`todo.sort_unstable_by_key(|(icao, date)| (date, icao))`. -/
def keyLeb (a b : Key) : Bool :=
  dateLtb a.2 b.2 || (decide (a.2 = b.2) && decide (a.1 ≤ b.1))

/-- Ordered insertion with respect to `keyLeb`. -/
def insertKey (k : Key) : List Key → List Key
  | [] => [k]
  | x :: xs => if keyLeb k x then k :: x :: xs else x :: insertKey k xs

/-- Sorting a list of keys ascending by `(month, ICAO)`, embedding
`sort_unstable_by_key`: on the duplicate-free element lists of the hash sets
involved, any comparison sort produces this unique sorted arrangement. -/
def sortKeys : List Key → List Key
  | [] => []
  | x :: xs => insertKey x (sortKeys xs)

/-- The todo computation of `main` in `src/bin/etl_legs.rs`: `ready` is the
listing of `position/` intersected with `required`; `completed` is hardcoded
to the empty set (the `list(client)` call is commented out); `todo` is their
difference sorted ascending by `(month, ICAO)`.  `required` and `listingPos`
stand for the key sets of the corresponding hash containers. -/
def mainTodo (required listingPos : List Key) : List Key :=
  let ready := listingPos.filter fun k => required.contains k
  let completed : List Key := []
  sortKeys (ready.filter fun k => !(completed.contains k))

/-- Modelled from the spec: the todo computation as §4.7 describes it, with
`Completed` enumerated from `list(leg/v2/data/)` (`listingLegs`) intersected
with `Required`, and `Todo = Ready ∖ Completed` sorted by `(month, ICAO)`. -/
def specTodo (required listingPos listingLegs : List Key) : List Key :=
  let ready := listingPos.filter fun k => required.contains k
  let completed := listingLegs.filter fun k => required.contains k
  sortKeys (ready.filter fun k => !(completed.contains k))

/-- One `entry(year).and_modify(+1).or_insert(0)` step of the
`required_by_year` fold in `aggregate` of `src/bin/etl_legs.rs`, over an
association list embedding of the `HashMap<i32, usize>`. -/
def bumpYear (y : ℤ) : List (ℤ × ℕ) → List (ℤ × ℕ)
  | [] => [(y, 0)]
  | (z, n) :: rest => if z = y then (z, n + 1) :: rest else (z, n) :: bumpYear y rest

/-- The `required_by_year` fold of `aggregate` in `src/bin/etl_legs.rs`:
count the required keys of each year, except that the first occurrence
inserts `0` rather than `1`. -/
def requiredByYear (required : List Key) : List (ℤ × ℕ) :=
  required.foldl (fun acc k => bumpYear k.2.year acc) []

/-- Lookup in the association-list embedding of a `HashMap`. -/
def lookupYear (m : List (ℤ × ℕ)) (y : ℤ) : Option ℕ :=
  (m.find? fun e => e.1 = y).map Prod.snd

/-- The `icao_months_to_process` value `aggregate` writes for a year:
`required_by_year.get(&year).unwrap()`; the unwrap cannot fire for a year
with completed work and is embedded as a default of `0`. -/
def icaoMonthsToProcess (required : List Key) (year : ℤ) : ℕ :=
  (lookupYear (requiredByYear required) year).getD 0

/-- Number of required keys whose month falls in the given year. -/
def countYear (required : List Key) (year : ℤ) : ℕ :=
  (required.filter fun k => k.2.year = year).length

/-! ### Leg ETL output schema and CO₂ formula -/

/-- The column names, in declaration order, of the `LegOut` record of
`src/bin/etl_legs.rs`; the `csv` crate writes them as the header and fields
of every Leg Row in this order. -/
def legOutColumns : List String :=
  ["icao_number", "tail_number", "aircraft_model", "start", "start_lat",
   "start_lon", "start_altitude", "end", "end_lat", "end_lon", "end_altitude",
   "length", "great_circle_distance", "hours_above_30000", "hours_above_40000"]

/-- Modelled from the spec: the Leg Row column list of §6. -/
def specLegRowColumns : List String :=
  ["icao_number", "tail_number", "aircraft_model", "start", "start_lat",
   "start_lon", "start_altitude", "end", "end_lat", "end_lon", "end_altitude",
   "duration", "distance", "great_circle_distance", "hours_above_30000",
   "hours_above_40000", "co2_emissions"]

/-- `LITER_PER_GALON` of `src/private_emissions.rs`. -/
def LITER_PER_GALON : ℚ := 3.78541

/-- `KG_PER_LITER` of `src/private_emissions.rs`. -/
def KG_PER_LITER : ℚ := 0.8

/-- `EMISSIONS_PER_KG` of `src/private_emissions.rs`. -/
def EMISSIONS_PER_KG : ℚ := 3.16

/-- `RADIATIVE_INDEX` of `src/private_emissions.rs`. -/
def RADIATIVE_INDEX : ℚ := 3.0

/-- `LIFE_CYCLE_FACTOR` of `src/private_emissions.rs`. -/
def LIFE_CYCLE_FACTOR : ℚ := 1.68

/-- `leg_co2e_kg` of `src/private_emissions.rs`: consumption in GPH and
duration in seconds give kg of CO₂e. -/
def leg_co2e_kg (consumption : ℚ) (duration_seconds : ℚ) : ℚ :=
  let hours := duration_seconds / 60 / 60
  consumption * hours * LITER_PER_GALON * KG_PER_LITER * EMISSIONS_PER_KG *
    RADIATIVE_INDEX * LIFE_CYCLE_FACTOR

/-! ### Trace client (`src/icao_to_trace.rs`) -/

/-- JSON values, with numbers as exact rationals (the payloads at stake carry
only exactly representable numbers). -/
inductive Json where
  | null
  | bool (b : Bool)
  | num (q : ℚ)
  | str (s : String)
  | arr (elems : List Json)
  | obj (fields : List (String × Json))

/-- Field lookup in a JSON object, as `serde_json::Map::get`. -/
def Json.get : Json → String → Option Json
  | .obj fields, key => (fields.find? fun f => f.1 = key).map Prod.snd
  | _, _ => none

/-- The payload `globe_history` of `src/icao_to_trace.rs` synthesizes on a
404 response, as a JSON object: `{"icao": ..., "noRegData": true,
"timestamp": 1697155200.000, "trace": []}`. -/
def synthPayload (icao : String) : List (String × Json) :=
  [("icao", .str icao), ("noRegData", .bool true),
   ("timestamp", .num 1697155200), ("trace", .arr [])]

/-- The status dispatch of `globe_history` in `src/icao_to_trace.rs`, with the
response status and body made explicit.  `200` returns the body; `404`
synthesizes the no-registration payload; every other status also returns the
body (`response.text()` mapped into the success value). -/
def globeHistoryDispatch (icao : String) (status : ℕ) (body : List (String × Json)) :
    Except String (List (String × Json)) :=
  if status = 200 then .ok body
  else if status = 404 then .ok (synthPayload icao)
  else .ok body

/-- Whether an `Except` value is the error case. -/
def exceptIsError {ε α : Type} : Except ε α → Bool
  | .error _ => true
  | .ok _ => false

/-- `compute_trace` of `src/icao_to_trace.rs`, over bytes embedded as their
parse outcome: `empty` models `data.len() == 0`, `parsed` models the result of
`serde_json::from_slice` (`none` = malformed, an error).  Every missing-shape
case yields `(0.0, vec![])`; a non-numeric `timestamp` would panic in the
source (`as_f64().unwrap()`) and is embedded as an error. -/
def compute_trace (empty : Bool) (parsed : Option Json) :
    Except String (ℚ × List Json) :=
  if empty then .ok (0, [])
  else
    match parsed with
    | none => .error "malformed"
    | some v =>
      match v with
      | .obj fields =>
        match Json.get (.obj fields) "timestamp" with
        | none => .ok (0, [])
        | some ts =>
          match ts with
          | .num t =>
            match Json.get (.obj fields) "trace" with
            | none => .ok (0, [])
            | some tr =>
              match tr with
              | .arr elems => .ok (t, elems)
              | _ => .ok (0, [])
          | _ => .error "timestamp unwrap"
      | _ => .ok (0, [])

/-! ## Helper lemmas -/

theorem dateLtb_iff (d e : Date) :
    dateLtb d e = true ↔
      (d.year < e.year ∨ (d.year = e.year ∧
        (d.month < e.month ∨ (d.month = e.month ∧ d.day < e.day)))) := by
  simp only [dateLtb, Bool.or_eq_true, Bool.and_eq_true, decide_eq_true_eq]

theorem dateLeb_iff (d e : Date) :
    dateLeb d e = true ↔ (dateLtb d e = true ∨ d = e) := by
  simp only [dateLeb, Bool.or_eq_true, decide_eq_true_eq]

theorem dateLeb_false_iff (d e : Date) :
    dateLeb d e = false ↔ dateLtb e d = true := by
  cases d with
  | mk dy dm dd =>
    cases e with
    | mk ey em ed =>
      simp only [dateLeb, dateLtb, Date.mk.injEq, Bool.or_eq_false_iff,
        Bool.or_eq_true, Bool.and_eq_false_iff, Bool.and_eq_true,
        decide_eq_false_iff_not, decide_eq_true_eq, not_and, not_lt]
      constructor
      · rintro ⟨⟨h1, h2⟩, h3⟩
        omega
      · intro h
        omega

theorem keyLeb_total (a b : Key) : keyLeb a b = true ∨ keyLeb b a = true := by
  obtain ⟨ai, ⟨ay, am, ad⟩⟩ := a
  obtain ⟨bi, ⟨by_, bm, bd⟩⟩ := b
  simp only [keyLeb, dateLtb, Date.mk.injEq, Bool.or_eq_true, Bool.and_eq_true,
    decide_eq_true_eq]
  omega

theorem keyLeb_trans {a b c : Key} (hab : keyLeb a b = true)
    (hbc : keyLeb b c = true) : keyLeb a c = true := by
  obtain ⟨ai, ⟨ay, am, ad⟩⟩ := a
  obtain ⟨bi, ⟨by_, bm, bd⟩⟩ := b
  obtain ⟨ci, ⟨cy, cm, cd⟩⟩ := c
  simp only [keyLeb, dateLtb, Date.mk.injEq, Bool.or_eq_true, Bool.and_eq_true,
    decide_eq_true_eq] at hab hbc ⊢
  omega

theorem mem_insertKey (k x : Key) (l : List Key) :
    x ∈ insertKey k l ↔ x = k ∨ x ∈ l := by
  induction l with
  | nil => simp [insertKey]
  | cons y ys ih =>
    simp only [insertKey]
    split
    · simp
    · simp [ih]
      tauto

theorem insertKey_perm (k : Key) (l : List Key) :
    (insertKey k l).Perm (k :: l) := by
  induction l with
  | nil => simp [insertKey]
  | cons y ys ih =>
    simp only [insertKey]
    split
    · exact List.Perm.refl _
    · exact ((ih.cons y).trans (List.Perm.swap k y ys))

theorem sortKeys_perm (l : List Key) : (sortKeys l).Perm l := by
  induction l with
  | nil => exact List.Perm.refl _
  | cons x xs ih =>
    exact (insertKey_perm x (sortKeys xs)).trans (ih.cons x)

theorem pairwise_insertKey (k : Key) {l : List Key}
    (h : l.Pairwise (fun a b => keyLeb a b = true)) :
    (insertKey k l).Pairwise (fun a b => keyLeb a b = true) := by
  induction l with
  | nil => simp [insertKey]
  | cons y ys ih =>
    simp only [insertKey]
    rw [List.pairwise_cons] at h
    split
    · rename_i hky
      refine List.Pairwise.cons ?_ (List.Pairwise.cons h.1 h.2)
      intro z hz
      rcases List.mem_cons.mp hz with rfl | hz
      · exact hky
      · exact keyLeb_trans hky (h.1 z hz)
    · rename_i hky
      refine List.Pairwise.cons ?_ (ih h.2)
      intro z hz
      rw [mem_insertKey] at hz
      rcases hz with rfl | hz
      · rcases keyLeb_total z y with hzy | hyz
        · exact absurd hzy hky
        · exact hyz
      · exact h.1 z hz

theorem sortKeys_sorted (l : List Key) :
    (sortKeys l).Pairwise (fun a b => keyLeb a b = true) := by
  induction l with
  | nil => simp [sortKeys]
  | cons x xs ih => exact pairwise_insertKey x ih

theorem legsStep_eq (prev : Position) (seq : List Position) (cur : Position) :
    legsStep prev seq cur =
      if landed prev cur && !(legsSeq1 prev seq cur).isEmpty
      then (some (legsSeq1 prev seq cur), [])
      else (none, legsSeq1 prev seq cur) := rfl

theorem legsStep_some_ne_nil {prev cur : Position} {seq leg seq1 : List Position}
    (h : legsStep prev seq cur = (some leg, seq1)) : leg ≠ [] := by
  rw [legsStep_eq] at h
  by_cases hg : (landed prev cur && !(legsSeq1 prev seq cur).isEmpty) = true
  · rw [if_pos hg] at h
    obtain ⟨h1, -⟩ := Prod.mk.injEq .. ▸ h
    obtain rfl : legsSeq1 prev seq cur = leg := by
      simpa using congrArg (fun o => o.getD []) h1
    obtain ⟨-, hne⟩ := Bool.and_eq_true .. |>.mp hg
    simpa [List.isEmpty_iff] using hne
  · rw [if_neg hg] at h
    exact absurd (Prod.mk.injEq .. ▸ h).1 (by simp)

theorem legsRun_ne_nil {rest : List Position} {prev : Position}
    {seq l : List Position} (h : l ∈ legsRun prev seq rest) : l ≠ [] := by
  induction rest generalizing prev seq with
  | nil =>
    simp only [legsRun] at h
    split at h
    · simp at h
    · rename_i hseq
      simp at h
      subst h
      simpa [List.isEmpty_iff] using hseq
  | cons cur rest ih =>
    rw [legsRun] at h
    rcases hstep : legsStep prev seq cur with ⟨emit, seq1⟩
    rw [hstep] at h
    cases emit with
    | some leg =>
      rcases List.mem_cons.mp h with rfl | h
      · exact legsStep_some_ne_nil hstep
      · exact ih h
    | none => exact ih h

/-! ## Claim C4: leg ETL output schema and CO₂ formula -/

/-- C4, counterexample: the Leg Row written by `src/bin/etl_legs.rs` does not
have the claimed column list — it has no `duration`, no `distance` and no
`co2_emissions` column at all (its twelfth column is `length`). -/
theorem c4_counterexample :
    specLegRowColumns ≠ legOutColumns ∧
      "duration" ∉ legOutColumns ∧ "distance" ∉ legOutColumns ∧
      "co2_emissions" ∉ legOutColumns := by
  refine ⟨?_, ?_, ?_, ?_⟩ <;> decide

/-- C4 (amended): every Leg Row written by the leg ETL contains, in this
order, the columns icao_number, tail_number, aircraft_model, start,
start_lat, start_lon, start_altitude, end, end_lat, end_lon, end_altitude,
length, great_circle_distance, hours_above_30000, hours_above_40000; no
duration, distance or CO₂ column is written by this ETL, and the library's
CO₂ formula `leg_co2e_kg` (used by the report binaries) equals
GPH · hours · 3.78541 · 0.8 · 3.16 · 3.0 · 1.68. -/
theorem c4_schema_and_co2 :
    String.intercalate "," legOutColumns =
      "icao_number,tail_number,aircraft_model,start,start_lat,start_lon,start_altitude,end,end_lat,end_lon,end_altitude,length,great_circle_distance,hours_above_30000,hours_above_40000" ∧
    "co2_emissions" ∉ legOutColumns ∧
    (∀ gph s : ℚ,
      leg_co2e_kg gph s = gph * (s / 3600) * 3.78541 * 0.8 * 3.16 * 3.0 * 1.68) := by
  refine ⟨rfl, by decide, fun gph s => ?_⟩
  simp only [leg_co2e_kg, LITER_PER_GALON, KG_PER_LITER, EMISSIONS_PER_KG,
    RADIATIVE_INDEX, LIFE_CYCLE_FACTOR]
  ring

/-! ## Claim C6: trace-client response handling -/

/-- C6, counterexample: a provider status other than 200 and 404 (here 500)
does not make the fetch return an error — `globe_history` returns the
response body as the success value. -/
theorem c6_counterexample :
    globeHistoryDispatch "45d2ed" 500 [("error", Json.str "oops")] =
        .ok [("error", Json.str "oops")] ∧
      exceptIsError (globeHistoryDispatch "45d2ed" 500 [("error", Json.str "oops")]) =
        false :=
  ⟨rfl, rfl⟩

/-- C6 (amended): a 404 answer makes the fetch succeed with the synthesized
payload, which decodes to an empty trace with timestamp 1697155200.000; a 200
answer returns the body; and any other status also returns the body as a
success — the fetch itself never errors on a received status, malformed
bodies only failing in the downstream JSON decode. -/
theorem c6_dispatch (icao : String) (status : ℕ) (body : List (String × Json))
    (h200 : status ≠ 200) (h404 : status ≠ 404) :
    globeHistoryDispatch icao 404 body = .ok (synthPayload icao) ∧
      compute_trace false (some (.obj (synthPayload icao))) = .ok (1697155200, []) ∧
      globeHistoryDispatch icao 200 body = .ok body ∧
      globeHistoryDispatch icao status body = .ok body := by
  refine ⟨rfl, rfl, rfl, ?_⟩
  simp only [globeHistoryDispatch, if_neg h200, if_neg h404]

/-- C6, witness: the dispatch theorem applied to status 500. -/
theorem c6_dispatch_witness :
    (500 : ℕ) ≠ 200 ∧ (500 : ℕ) ≠ 404 ∧
      (globeHistoryDispatch "45d2ed" 404 [] = .ok (synthPayload "45d2ed") ∧
        compute_trace false (some (.obj (synthPayload "45d2ed"))) =
          .ok (1697155200, []) ∧
        globeHistoryDispatch "45d2ed" 200 [] = .ok [] ∧
        globeHistoryDispatch "45d2ed" 500 [] = .ok []) :=
  ⟨by decide, by decide,
    c6_dispatch "45d2ed" 500 [] (by decide) (by decide)⟩

/-! ## Claim C7: cache action of the per-month positions blob -/

/-- C7, counterexample: with today = 2026-10-01, the month 2026-09 is
strictly in the past (a completed month), yet `month_positions` selects
`ReadFetch`, not `ReadFetchWrite`. -/
theorem c7_counterexample :
    monthPositionsAction ⟨2026, 9, 1⟩ ⟨2026, 10, 1⟩ = CacheAction.ReadFetch ∧
      monthPositionsAction ⟨2026, 9, 1⟩ ⟨2026, 10, 1⟩ ≠ CacheAction.ReadFetchWrite ∧
      dateLtb ⟨2026, 9, 1⟩ ⟨2026, 10, 1⟩ = true := by
  refine ⟨?_, ?_, ?_⟩ <;> decide

/-- C7 (amended): `month_positions` uses `ReadFetchWrite` exactly when the
first day of the next month is strictly before today (UTC); in particular
the current month and all future months get `ReadFetch`, and a past month
still gets `ReadFetch` on the first day of the following month. -/
theorem c7_month_action (m today : Date) (h1 : 1 ≤ m.month) (h2 : m.month ≤ 12) :
    (monthPositionsAction m today = CacheAction.ReadFetchWrite ↔
      dateLtb (first_of_next_month m) today = true) ∧
    (today.year < m.year ∨ (today.year = m.year ∧ today.month ≤ m.month) →
      monthPositionsAction m today = CacheAction.ReadFetch) := by
  constructor
  · cases hb : dateLeb today (first_of_next_month m) with
    | false =>
      simp only [monthPositionsAction, CacheAction.from_date, hb, Bool.false_eq_true,
        if_false]
      simp only [(dateLeb_false_iff today (first_of_next_month m)).mp hb, iff_true]
    | true =>
      simp only [monthPositionsAction, CacheAction.from_date, hb, if_true]
      constructor
      · intro hcontra
        exact absurd hcontra (by decide)
      · intro hlt
        rw [(dateLeb_false_iff today (first_of_next_month m)).mpr hlt] at hb
        exact absurd hb (by decide)
  · intro hcur
    cases hb : dateLeb today (first_of_next_month m) with
    | false =>
      exfalso
      have hlt := (dateLeb_false_iff today (first_of_next_month m)).mp hb
      rw [dateLtb_iff] at hlt
      unfold first_of_next_month at hlt
      by_cases h12 : m.month = 12 <;> simp [h12] at hlt <;> omega
    | true =>
      simp only [monthPositionsAction, CacheAction.from_date, hb, if_true]

/-- C7, witness: the amended theorem applied to the month 2026-08 with
today = 2026-10-01. -/
theorem c7_month_action_witness :
    (monthPositionsAction ⟨2026, 8, 1⟩ ⟨2026, 10, 1⟩ = CacheAction.ReadFetchWrite ↔
      dateLtb (first_of_next_month ⟨2026, 8, 1⟩) ⟨2026, 10, 1⟩ = true) ∧
    ((⟨2026, 10, 1⟩ : Date).year < (⟨2026, 8, 1⟩ : Date).year ∨
      ((⟨2026, 10, 1⟩ : Date).year = (⟨2026, 8, 1⟩ : Date).year ∧
        (⟨2026, 10, 1⟩ : Date).month ≤ (⟨2026, 8, 1⟩ : Date).month) →
      monthPositionsAction ⟨2026, 8, 1⟩ ⟨2026, 10, 1⟩ = CacheAction.ReadFetch) :=
  c7_month_action ⟨2026, 8, 1⟩ ⟨2026, 10, 1⟩ (by decide) (by decide)

/-! ## Claim C9: the status manifest's icao_months_to_process -/

/-- C9, failing input: a required set with exactly one key in 2023 (the same
key being completed).  The `required_by_year` fold seeds new years with
`or_insert(0)` instead of `1`, so `aggregate` writes
`icao_months_to_process = 0` while 2023 has one required key. -/
theorem c9_failing_input :
    icaoMonthsToProcess [(5, ⟨2023, 5, 1⟩)] 2023 = 0 ∧
      countYear [(5, ⟨2023, 5, 1⟩)] 2023 = 1 := by
  constructor <;> decide

/-! ## Claim C10: empty input to the leg state machine -/

/-- C10: applying the state machine to the empty position sequence yields no
legs and does not fail — `Legs::new` substitutes the synthetic grounded
position (epoch 0, latitude 0, longitude 0) — and every emitted leg of any
input is a non-empty sequence, so the synthetic position never appears in an
emitted leg of the empty input. -/
theorem c10_empty_and_nonempty (P l : List Position) (h : l ∈ machineLegs P) :
    machineLegs [] = [] ∧ l ≠ [] := by
  refine ⟨rfl, ?_⟩
  cases P with
  | nil => exact absurd h (by simp [machineLegs, legsRun])
  | cons p ps => exact legsRun_ne_nil h

/-- C10, witness: the theorem applied to a concrete three-position flight. -/
theorem c10_empty_and_nonempty_witness :
    (⟨0, 0, 0, none⟩ : Position) ::
        (⟨100, 0, 0, some 20000⟩ : Position) :: [(⟨200, 0, 0, none⟩ : Position)] ∈
      machineLegs [⟨0, 0, 0, none⟩, ⟨100, 0, 0, some 20000⟩, ⟨200, 0, 0, none⟩] ∧
    (machineLegs [] = [] ∧
      (⟨0, 0, 0, none⟩ : Position) ::
          (⟨100, 0, 0, some 20000⟩ : Position) :: [(⟨200, 0, 0, none⟩ : Position)] ≠ []) := by
  have heval : machineLegs [⟨0, 0, 0, none⟩, ⟨100, 0, 0, some 20000⟩, ⟨200, 0, 0, none⟩] =
      [[⟨0, 0, 0, none⟩, ⟨100, 0, 0, some 20000⟩, ⟨200, 0, 0, none⟩]] := by
    norm_num [machineLegs, legsRun, legsStep, legsSeq1, is_grounded, landed,
      grounded_heuristic, Position.flying, Position.grounded, Position.altitudeVal]
  have hmem : (⟨0, 0, 0, none⟩ : Position) ::
      (⟨100, 0, 0, some 20000⟩ : Position) :: [(⟨200, 0, 0, none⟩ : Position)] ∈
      machineLegs [⟨0, 0, 0, none⟩, ⟨100, 0, 0, some 20000⟩, ⟨200, 0, 0, none⟩] := by
    rw [heval]
    exact List.mem_singleton.mpr rfl
  exact ⟨hmem, c10_empty_and_nonempty _ _ hmem⟩

/-! ## Claim C1: gap heuristics of the leg state machine -/

/-- C1: for consecutive positions with at least one flying — a gap over
5 minutes with both altitudes at least 10 000 ft and the gap at most
10 hours detects no landing and keeps `prev` and `cur` in the same leg
(`cur` is appended to the running sequence, seeded with `prev` when empty);
a gap over 5 minutes with one altitude below 10 000 ft detects a heuristic
landing and splits the running leg; a gap over 10 hours splits it regardless
of altitude. -/
theorem c1_gap_heuristics (prev cur : Position) (seq : List Position)
    (hfly : prev.flying = true ∨ cur.flying = true) :
    (cur.datetime - prev.datetime > 300 → 10000 ≤ prev.altitudeVal →
      10000 ≤ cur.altitudeVal → cur.datetime - prev.datetime ≤ 36000 →
      landed prev cur = false ∧
        legsStep prev seq cur =
          (none, (if seq.isEmpty then [prev] else seq) ++ [cur])) ∧
    (cur.datetime - prev.datetime > 300 →
      (cur.altitudeVal < 10000 ∨ prev.altitudeVal < 10000) →
      grounded_heuristic prev cur = true ∧
        (seq ≠ [] → legsStep prev seq cur = (some seq, []))) ∧
    (cur.datetime - prev.datetime > 36000 →
      grounded_heuristic prev cur = true ∧
        (seq ≠ [] → legsStep prev seq cur = (some seq, []))) := by
  have hflyb : (prev.flying || cur.flying) = true := by
    rcases hfly with h | h <;> simp [h]
  have emitStep : grounded_heuristic prev cur = true → seq ≠ [] →
      legsStep prev seq cur = (some seq, []) := by
    intro hgh hseq
    have hland : landed prev cur = true := by simp [landed, hgh]
    have hisgr : is_grounded prev cur = true := by simp [is_grounded, hgh]
    have hne : seq.isEmpty = false := by
      cases seq with
      | nil => exact absurd rfl hseq
      | cons a l => rfl
    simp [legsStep, legsSeq1, hisgr, hland, hne]
  refine ⟨?_, ?_, ?_⟩
  · intro hgap hpa hca hgap10
    have hcurgr : cur.grounded = false := by
      cases hc : cur.altitude with
      | none =>
        rw [Position.altitudeVal, hc] at hca
        norm_num at hca
      | some a => simp [Position.grounded, hc]
    have hprgr : prev.grounded = false := by
      cases hc : prev.altitude with
      | none =>
        rw [Position.altitudeVal, hc] at hpa
        norm_num at hpa
      | some a => simp [Position.grounded, hc]
    have d1 : decide (cur.datetime - prev.datetime > 36000) = false :=
      decide_eq_false (not_lt.mpr hgap10)
    have d2 : decide (cur.altitudeVal < 10000) = false :=
      decide_eq_false (not_lt.mpr hca)
    have d3 : decide (prev.altitudeVal < 10000) = false :=
      decide_eq_false (not_lt.mpr hpa)
    have hgh : grounded_heuristic prev cur = false := by
      simp [grounded_heuristic, hflyb, d1, d2, d3]
    have hland : landed prev cur = false := by
      simp [landed, hgh, hcurgr]
    have hisgr : is_grounded prev cur = false := by
      simp [is_grounded, hgh, hcurgr]
    exact ⟨hland, by simp [legsStep, legsSeq1, hisgr, hland]⟩
  · intro hgap halt
    have hgh : grounded_heuristic prev cur = true := by
      have d : (decide (cur.altitudeVal < 10000) ||
          decide (prev.altitudeVal < 10000)) = true := by
        rcases halt with h | h <;> simp [h]
      simp [grounded_heuristic, hflyb, hgap, d]
    exact ⟨hgh, emitStep hgh⟩
  · intro hgap
    have hgh : grounded_heuristic prev cur = true := by
      simp [grounded_heuristic, hflyb, hgap]
    exact ⟨hgh, emitStep hgh⟩

/-- C1, witness: the theorem applied to two flying positions 400 s apart at
20 000 ft with a one-element running sequence. -/
theorem c1_gap_heuristics_witness :
    ((⟨400, 0, 0, some 20000⟩ : Position).datetime -
          (⟨0, 0, 0, some 20000⟩ : Position).datetime > 300 →
      10000 ≤ (⟨0, 0, 0, some 20000⟩ : Position).altitudeVal →
      10000 ≤ (⟨400, 0, 0, some 20000⟩ : Position).altitudeVal →
      (⟨400, 0, 0, some 20000⟩ : Position).datetime -
          (⟨0, 0, 0, some 20000⟩ : Position).datetime ≤ 36000 →
      landed ⟨0, 0, 0, some 20000⟩ ⟨400, 0, 0, some 20000⟩ = false ∧
        legsStep ⟨0, 0, 0, some 20000⟩ [⟨0, 0, 0, some 20000⟩]
            ⟨400, 0, 0, some 20000⟩ =
          (none, (if [(⟨0, 0, 0, some 20000⟩ : Position)].isEmpty
              then [⟨0, 0, 0, some 20000⟩] else [⟨0, 0, 0, some 20000⟩]) ++
            [⟨400, 0, 0, some 20000⟩])) ∧
    ((⟨400, 0, 0, some 20000⟩ : Position).datetime -
          (⟨0, 0, 0, some 20000⟩ : Position).datetime > 300 →
      ((⟨400, 0, 0, some 20000⟩ : Position).altitudeVal < 10000 ∨
        (⟨0, 0, 0, some 20000⟩ : Position).altitudeVal < 10000) →
      grounded_heuristic ⟨0, 0, 0, some 20000⟩ ⟨400, 0, 0, some 20000⟩ = true ∧
        ([(⟨0, 0, 0, some 20000⟩ : Position)] ≠ [] →
          legsStep ⟨0, 0, 0, some 20000⟩ [⟨0, 0, 0, some 20000⟩]
              ⟨400, 0, 0, some 20000⟩ =
            (some [⟨0, 0, 0, some 20000⟩], []))) ∧
    ((⟨400, 0, 0, some 20000⟩ : Position).datetime -
          (⟨0, 0, 0, some 20000⟩ : Position).datetime > 36000 →
      grounded_heuristic ⟨0, 0, 0, some 20000⟩ ⟨400, 0, 0, some 20000⟩ = true ∧
        ([(⟨0, 0, 0, some 20000⟩ : Position)] ≠ [] →
          legsStep ⟨0, 0, 0, some 20000⟩ [⟨0, 0, 0, some 20000⟩]
              ⟨400, 0, 0, some 20000⟩ =
            (some [⟨0, 0, 0, some 20000⟩], []))) :=
  c1_gap_heuristics ⟨0, 0, 0, some 20000⟩ ⟨400, 0, 0, some 20000⟩
    [⟨0, 0, 0, some 20000⟩] (Or.inl rfl)

/-! ## Claim C2: the post-filter of the `legs` facade -/

/-- C2: every leg returned by the public `legs` facade has duration at least
5 minutes (300 s) and geo distance at least 3 km, and any state-machine leg
with duration under 5 minutes or distance under 3 km is discarded by the
post-filter. -/
theorem c2_post_filter (dist : Position → Position → ℚ) (P l : List Position) :
    (l ∈ legs dist P → 300 ≤ legDuration l ∧ 3 ≤ legDistance dist l) ∧
    (l ∈ machineLegs P → legDuration l < 300 ∨ legDistance dist l < 3 →
      l ∉ legs dist P) := by
  constructor
  · intro h
    rw [legs, List.mem_filter] at h
    obtain ⟨-, hcond⟩ := h
    rw [Bool.and_eq_true, decide_eq_true_eq, decide_eq_true_eq] at hcond
    exact ⟨le_of_lt hcond.1, le_of_lt hcond.2⟩
  · intro hmem hbad hcontra
    rw [legs, List.mem_filter] at hcontra
    obtain ⟨-, hcond⟩ := hcontra
    rw [Bool.and_eq_true, decide_eq_true_eq, decide_eq_true_eq] at hcond
    rcases hbad with hb | hb
    · exact absurd hcond.1 (not_lt.mpr (le_of_lt hb))
    · exact absurd hcond.2 (not_lt.mpr (le_of_lt hb))

/-- C2, witness: the theorem applied to a four-position flight of duration
400 s under the constant distance function 10 km. -/
theorem c2_post_filter_witness :
    [(⟨0, 0, 0, none⟩ : Position), ⟨100, 0, 0, some 20000⟩,
        ⟨200, 0, 0, some 20000⟩, ⟨400, 0, 0, some 20000⟩] ∈
      legs (fun _ _ => 10) [⟨0, 0, 0, none⟩, ⟨100, 0, 0, some 20000⟩,
        ⟨200, 0, 0, some 20000⟩, ⟨400, 0, 0, some 20000⟩] ∧
    (300 ≤ legDuration [(⟨0, 0, 0, none⟩ : Position), ⟨100, 0, 0, some 20000⟩,
        ⟨200, 0, 0, some 20000⟩, ⟨400, 0, 0, some 20000⟩] ∧
      3 ≤ legDistance (fun _ _ => 10) [(⟨0, 0, 0, none⟩ : Position),
        ⟨100, 0, 0, some 20000⟩, ⟨200, 0, 0, some 20000⟩,
        ⟨400, 0, 0, some 20000⟩]) := by
  have heval : legs (fun _ _ => 10) [(⟨0, 0, 0, none⟩ : Position),
      ⟨100, 0, 0, some 20000⟩, ⟨200, 0, 0, some 20000⟩, ⟨400, 0, 0, some 20000⟩] =
      [[⟨0, 0, 0, none⟩, ⟨100, 0, 0, some 20000⟩, ⟨200, 0, 0, some 20000⟩,
        ⟨400, 0, 0, some 20000⟩]] := by
    norm_num [legs, machineLegs, legsRun, legsStep, legsSeq1, is_grounded, landed,
      grounded_heuristic, Position.flying, Position.grounded, Position.altitudeVal,
      legDuration, legDistance]
  have hmem : [(⟨0, 0, 0, none⟩ : Position), ⟨100, 0, 0, some 20000⟩,
      ⟨200, 0, 0, some 20000⟩, ⟨400, 0, 0, some 20000⟩] ∈
      legs (fun _ _ => 10) [⟨0, 0, 0, none⟩, ⟨100, 0, 0, some 20000⟩,
        ⟨200, 0, 0, some 20000⟩, ⟨400, 0, 0, some 20000⟩] := by
    rw [heval]
    exact List.mem_singleton.mpr rfl
  exact ⟨hmem, (c2_post_filter (fun _ _ => 10) _ _).1 hmem⟩

/-! ## Claim C5: the todo set of the leg-ETL orchestrator -/

/-- C5, counterexample: with one required key that is both ready (listed
under `position/`) and completed (listed under `leg/v2/data/`), the claim
demands an empty todo, but `main` hardcodes Completed to the empty set
(the `list(client)` call is commented out), so the key is executed again. -/
theorem c5_counterexample :
    mainTodo [(5, ⟨2023, 1, 1⟩)] [(5, ⟨2023, 1, 1⟩)] = [(5, ⟨2023, 1, 1⟩)] ∧
      specTodo [(5, ⟨2023, 1, 1⟩)] [(5, ⟨2023, 1, 1⟩)] [(5, ⟨2023, 1, 1⟩)] = [] ∧
      mainTodo [(5, ⟨2023, 1, 1⟩)] [(5, ⟨2023, 1, 1⟩)] ≠
        specTodo [(5, ⟨2023, 1, 1⟩)] [(5, ⟨2023, 1, 1⟩)] [(5, ⟨2023, 1, 1⟩)] := by
  refine ⟨?_, ?_, ?_⟩ <;> decide

/-- C5 (amended): because Completed is hardcoded to the empty set, the todo
set executed by the leg-ETL orchestrator is exactly Ready — the `position/`
listing intersected with Required — sorted ascending by `(month, ICAO)`. -/
theorem c5_todo_is_sorted_ready (required listingPos : List Key) :
    (mainTodo required listingPos).Perm
        (listingPos.filter fun k => required.contains k) ∧
      (mainTodo required listingPos).Pairwise fun a b => keyLeb a b = true := by
  have hbody : mainTodo required listingPos =
      sortKeys (listingPos.filter fun k => required.contains k) := by
    simp [mainTodo]
  rw [hbody]
  exact ⟨sortKeys_perm _, sortKeys_sorted _⟩

/-! ## Claim C3: emitted legs versus the input sequence -/

/-- C3, counterexample: on a six-position input with a touch-and-go, the
landing position closes the first leg and seeds the second, so it occurs
twice in the concatenation of the emitted legs while occurring once in the
input — the concatenation is not a subsequence of the input. -/
theorem c3_counterexample :
    (machineLegs [(⟨0, 0, 0, none⟩ : Position), ⟨1, 0, 0, some 20000⟩,
        ⟨2, 0, 0, some 20000⟩, ⟨3, 0, 0, none⟩, ⟨4, 0, 0, some 20000⟩,
        ⟨5, 0, 0, some 20000⟩]).flatten.count (⟨3, 0, 0, none⟩ : Position) = 2 ∧
    [(⟨0, 0, 0, none⟩ : Position), ⟨1, 0, 0, some 20000⟩, ⟨2, 0, 0, some 20000⟩,
        ⟨3, 0, 0, none⟩, ⟨4, 0, 0, some 20000⟩,
        ⟨5, 0, 0, some 20000⟩].count (⟨3, 0, 0, none⟩ : Position) = 1 ∧
    ¬ ((machineLegs [(⟨0, 0, 0, none⟩ : Position), ⟨1, 0, 0, some 20000⟩,
        ⟨2, 0, 0, some 20000⟩, ⟨3, 0, 0, none⟩, ⟨4, 0, 0, some 20000⟩,
        ⟨5, 0, 0, some 20000⟩]).flatten.Sublist
      [(⟨0, 0, 0, none⟩ : Position), ⟨1, 0, 0, some 20000⟩, ⟨2, 0, 0, some 20000⟩,
        ⟨3, 0, 0, none⟩, ⟨4, 0, 0, some 20000⟩, ⟨5, 0, 0, some 20000⟩]) := by
  have heval : machineLegs [(⟨0, 0, 0, none⟩ : Position), ⟨1, 0, 0, some 20000⟩,
      ⟨2, 0, 0, some 20000⟩, ⟨3, 0, 0, none⟩, ⟨4, 0, 0, some 20000⟩,
      ⟨5, 0, 0, some 20000⟩] =
      [[⟨0, 0, 0, none⟩, ⟨1, 0, 0, some 20000⟩, ⟨2, 0, 0, some 20000⟩,
        ⟨3, 0, 0, none⟩],
       [⟨3, 0, 0, none⟩, ⟨4, 0, 0, some 20000⟩, ⟨5, 0, 0, some 20000⟩]] := by
    norm_num [machineLegs, legsRun, legsStep, legsSeq1, is_grounded, landed,
      grounded_heuristic, Position.flying, Position.grounded, Position.altitudeVal]
  have hc1 : (machineLegs [(⟨0, 0, 0, none⟩ : Position), ⟨1, 0, 0, some 20000⟩,
      ⟨2, 0, 0, some 20000⟩, ⟨3, 0, 0, none⟩, ⟨4, 0, 0, some 20000⟩,
      ⟨5, 0, 0, some 20000⟩]).flatten.count (⟨3, 0, 0, none⟩ : Position) = 2 := by
    rw [heval]
    decide
  refine ⟨hc1, by decide, fun hsub => ?_⟩
  have hle := hsub.count_le (⟨3, 0, 0, none⟩ : Position)
  rw [hc1] at hle
  have : [(⟨0, 0, 0, none⟩ : Position), ⟨1, 0, 0, some 20000⟩,
      ⟨2, 0, 0, some 20000⟩, ⟨3, 0, 0, none⟩, ⟨4, 0, 0, some 20000⟩,
      ⟨5, 0, 0, some 20000⟩].count (⟨3, 0, 0, none⟩ : Position) = 1 := by decide
  omega

/-! ### Support for the boundary-sharing analysis of the state machine -/

theorem flying_eq_not_grounded (p : Position) : p.flying = !p.grounded := by
  cases hc : p.altitude <;> simp [Position.flying, Position.grounded, hc]

theorem isEmpty_eq_false_of_ne_nil {l : List Position} (h : l ≠ []) :
    l.isEmpty = false := by
  cases l with
  | nil => exact absurd rfl h
  | cons a t => rfl

theorem isEmpty_concat (l : List Position) (a : Position) :
    (l ++ [a]).isEmpty = false := by
  cases l <;> rfl

theorem landed_false_heuristic {p c : Position} (h : landed p c = false) :
    grounded_heuristic p c = false := by
  unfold landed at h
  exact (Bool.or_eq_false_iff.mp h).2

theorem both_grounded_of_isgr {p c : Position} (hg : is_grounded p c = true)
    (hl : landed p c = false) : p.grounded = true ∧ c.grounded = true := by
  have hgh := landed_false_heuristic hl
  unfold is_grounded at hg
  rw [hgh, Bool.or_false] at hg
  exact (Bool.and_eq_true p.grounded c.grounded) ▸ hg

theorem cur_flying_of_step {p c : Position} (hg : is_grounded p c = false)
    (hl : landed p c = false) : c.flying = true := by
  have hgh := landed_false_heuristic hl
  unfold is_grounded at hg
  rw [hgh, Bool.or_false] at hg
  have hl1 : (p.flying && c.grounded) = false := by
    unfold landed at hl
    exact (Bool.or_eq_false_iff.mp hl).1
  cases hcg : c.grounded with
  | false =>
    rw [flying_eq_not_grounded, hcg]
    rfl
  | true =>
    rw [hcg, Bool.and_true] at hg hl1
    rw [flying_eq_not_grounded, hg] at hl1
    simp at hl1

theorem legsRun_cons_emit {prev cur : Position} {seq leg seq1 : List Position}
    (rest : List Position) (h : legsStep prev seq cur = (some leg, seq1)) :
    legsRun prev seq (cur :: rest) = leg :: legsRun cur seq1 rest := by
  simp only [legsRun, h]

theorem legsRun_cons_skip {prev cur : Position} {seq seq1 : List Position}
    (rest : List Position) (h : legsStep prev seq cur = (none, seq1)) :
    legsRun prev seq (cur :: rest) = legsRun cur seq1 rest := by
  simp only [legsRun, h]

theorem legsStep_emit (prev : Position) (seq : List Position) (cur : Position)
    (hld : landed prev cur = true)
    (hne : (legsSeq1 prev seq cur).isEmpty = false) :
    legsStep prev seq cur = (some (legsSeq1 prev seq cur), []) := by
  rw [legsStep_eq, if_pos (by rw [hld, hne]; rfl)]

theorem legsStep_skip_notlanded (prev : Position) (seq : List Position)
    (cur : Position) (hld : landed prev cur = false) :
    legsStep prev seq cur = (none, legsSeq1 prev seq cur) := by
  rw [legsStep_eq, if_neg (by rw [hld]; simp)]

theorem legsStep_skip_empty (prev : Position) (seq : List Position)
    (cur : Position) (hne : (legsSeq1 prev seq cur).isEmpty = true) :
    legsStep prev seq cur = (none, legsSeq1 prev seq cur) := by
  rw [legsStep_eq, if_neg (by rw [hne]; simp)]

theorem legsSeq1_not_grounded {prev cur : Position} {seq : List Position}
    (hg : is_grounded prev cur = false) :
    legsSeq1 prev seq cur = (if seq.isEmpty then [prev] else seq) ++ [cur] := by
  simp [legsSeq1, hg]

theorem legsSeq1_grounded {prev cur : Position} {seq : List Position}
    (hg : is_grounded prev cur = true) : legsSeq1 prev seq cur = seq := by
  simp [legsSeq1, hg]

theorem dropSharedHead_none (l : List Position) : dropSharedHead none l = l := by
  cases l <;> rfl

theorem dropSharedHead_same (a : Position) (bs : List Position) :
    dropSharedHead (some a) (a :: bs) = bs := by
  simp [dropSharedHead]

theorem dropSharedHead_sublist (x : Option Position) (l : List Position) :
    List.Sublist (dropSharedHead x l) l := by
  cases x with
  | none => rw [dropSharedHead_none]
  | some a =>
    cases l with
    | nil => exact List.Sublist.refl _
    | cons b bs =>
      by_cases hab : a = b
      · simp only [dropSharedHead, if_pos hab]
        exact List.sublist_cons_self b bs
      · simp only [dropSharedHead, if_neg hab]
        exact List.Sublist.refl _

theorem dcat_cons (x : Option Position) (l : List Position)
    (ls : List (List Position)) :
    dcat x (l :: ls) = dropSharedHead x l ++ dcat l.getLast? ls := rfl

theorem dcat_sublist_none (x : Option Position) (ls : List (List Position)) :
    List.Sublist (dcat x ls) (dcat none ls) := by
  cases ls with
  | nil => exact List.Sublist.refl _
  | cons l ls =>
    rw [dcat_cons, dcat_cons, dropSharedHead_none]
    exact (dropSharedHead_sublist x l).append (List.Sublist.refl _)

theorem legsRun_first_leg (rest : List Position) :
    ∀ (prev : Position) (seq : List Position), seq ≠ [] →
      ∃ ext ls, legsRun prev seq rest = (seq ++ ext) :: ls := by
  induction rest with
  | nil =>
    intro prev seq hseq
    refine ⟨[], [], ?_⟩
    have hne : seq.isEmpty = false := isEmpty_eq_false_of_ne_nil hseq
    simp [legsRun, hne]
  | cons cur rs ih =>
    intro prev seq hseq
    have hne : seq.isEmpty = false := isEmpty_eq_false_of_ne_nil hseq
    cases hg : is_grounded prev cur with
    | true =>
      have hseq1 : legsSeq1 prev seq cur = seq := legsSeq1_grounded hg
      cases hld : landed prev cur with
      | true =>
        have hstep : legsStep prev seq cur = (some seq, []) := by
          have h := legsStep_emit prev seq cur hld (by rw [hseq1]; exact hne)
          rwa [hseq1] at h
        exact ⟨[], legsRun cur [] rs,
          by rw [legsRun_cons_emit rs hstep, List.append_nil]⟩
      | false =>
        have hstep : legsStep prev seq cur = (none, seq) := by
          have h := legsStep_skip_notlanded prev seq cur hld
          rwa [hseq1] at h
        obtain ⟨ext, ls, hrec⟩ := ih cur seq hseq
        exact ⟨ext, ls, by rw [legsRun_cons_skip rs hstep, hrec]⟩
    | false =>
      have hseq1 : legsSeq1 prev seq cur = seq ++ [cur] := by
        simp [legsSeq1, hg, hne]
      cases hguard : (landed prev cur && !(legsSeq1 prev seq cur).isEmpty) with
      | true =>
        have hstep : legsStep prev seq cur = (some (seq ++ [cur]), []) := by
          rw [legsStep_eq, if_pos hguard, hseq1]
        exact ⟨[cur], legsRun cur [] rs, by rw [legsRun_cons_emit rs hstep]⟩
      | false =>
        have hstep : legsStep prev seq cur = (none, seq ++ [cur]) := by
          rw [legsStep_eq, if_neg (by rw [hguard]; exact Bool.false_ne_true), hseq1]
        obtain ⟨ext, ls, hrec⟩ := ih cur (seq ++ [cur]) (by simp)
        refine ⟨[cur] ++ ext, ls, ?_⟩
        rw [legsRun_cons_skip rs hstep, hrec, List.append_assoc]

theorem legsRun_dcat (rest : List Position) :
    ∀ (prev : Position) (seq : List Position),
      (seq = [] ∨ (seq.getLast? = some prev ∧ prev.flying = true)) →
      List.Sublist (dcat none (legsRun prev seq rest))
        ((if seq.isEmpty then [prev] else seq) ++ rest) ∧
      (seq = [] →
        List.Sublist (dcat (some prev) (legsRun prev seq rest)) rest) := by
  induction rest with
  | nil =>
    intro prev seq hinv
    constructor
    · cases hse : seq.isEmpty with
      | true =>
        have hnil : seq = [] := List.isEmpty_iff.mp hse
        subst hnil
        simp [legsRun, dcat]
      | false =>
        simp only [legsRun, hse, Bool.false_eq_true, if_false, List.append_nil]
        rw [dcat_cons, dropSharedHead_none]
        simp [dcat]
    · rintro rfl
      simp [legsRun, dcat]
  | cons cur rs ih =>
    intro prev seq hinv
    rcases hinv with rfl | ⟨hlast, hfly⟩
    · -- the running sequence is empty
      cases hg : is_grounded prev cur with
      | true =>
        have hseq1 : legsSeq1 prev [] cur = [] := legsSeq1_grounded hg
        have hstep : legsStep prev [] cur = (none, []) := by
          have h := legsStep_skip_empty prev [] cur (by rw [hseq1]; rfl)
          rwa [hseq1] at h
        rw [legsRun_cons_skip rs hstep]
        have hih := ih cur [] (Or.inl rfl)
        have h1 : List.Sublist (dcat none (legsRun cur [] rs)) (cur :: rs) := by
          simpa using hih.1
        refine ⟨?_, fun _ => (dcat_sublist_none _ _).trans h1⟩
        simpa using h1.cons prev
      | false =>
        have hseq1 : legsSeq1 prev [] cur = [prev, cur] := by
          rw [legsSeq1_not_grounded hg]
          rfl
        cases hld : landed prev cur with
        | true =>
          have hstep : legsStep prev [] cur = (some [prev, cur], []) := by
            have h := legsStep_emit prev [] cur hld
              (by rw [hseq1]; rfl)
            rwa [hseq1] at h
          rw [legsRun_cons_emit rs hstep]
          have hb := (ih cur [] (Or.inl rfl)).2 rfl
          constructor
          · rw [dcat_cons, dropSharedHead_none]
            have hg2 : ([prev, cur] : List Position).getLast? = some cur := rfl
            rw [hg2]
            simpa using (hb.cons₂ cur).cons₂ prev
          · intro _
            rw [dcat_cons, dropSharedHead_same]
            have hg2 : ([prev, cur] : List Position).getLast? = some cur := rfl
            rw [hg2]
            exact hb.cons₂ cur
        | false =>
          have hstep : legsStep prev [] cur = (none, [prev, cur]) := by
            have h := legsStep_skip_notlanded prev [] cur hld
            rwa [hseq1] at h
          rw [legsRun_cons_skip rs hstep]
          have hcf : cur.flying = true := cur_flying_of_step hg hld
          have hih := ih cur [prev, cur] (Or.inr ⟨rfl, hcf⟩)
          constructor
          · simpa using hih.1
          · intro _
            obtain ⟨ext, ls, hfl⟩ :=
              legsRun_first_leg rs cur [prev, cur] (by simp)
            have h1 := hih.1
            rw [hfl] at h1 ⊢
            rw [dcat_cons] at h1 ⊢
            simp only [List.cons_append, List.nil_append] at h1 ⊢
            rw [dropSharedHead_same]
            rw [dropSharedHead_none] at h1
            simp only [List.isEmpty_cons, Bool.false_eq_true, if_false,
              List.cons_append] at h1
            exact List.cons_sublist_cons.mp h1
    · -- the running sequence is non-empty and ends at prev
      have hsne : seq ≠ [] := by
        intro h
        subst h
        simp at hlast
      have hne : seq.isEmpty = false := isEmpty_eq_false_of_ne_nil hsne
      have htarget : (if seq.isEmpty then [prev] else seq) = seq := by
        simp [hne]
      cases hg : is_grounded prev cur with
      | false =>
        have hseq1 : legsSeq1 prev seq cur = seq ++ [cur] := by
          simp [legsSeq1, hg, hne]
        cases hld : landed prev cur with
        | true =>
          have hstep : legsStep prev seq cur = (some (seq ++ [cur]), []) := by
            have h := legsStep_emit prev seq cur hld
              (by rw [hseq1]; exact isEmpty_concat seq cur)
            rwa [hseq1] at h
          rw [legsRun_cons_emit rs hstep]
          have hb := (ih cur [] (Or.inl rfl)).2 rfl
          refine ⟨?_, fun hcontra => absurd hcontra hsne⟩
          rw [dcat_cons, dropSharedHead_none, List.getLast?_concat, htarget,
            List.append_assoc]
          exact List.Sublist.append_left (hb.cons₂ cur) seq
        | false =>
          have hstep : legsStep prev seq cur = (none, seq ++ [cur]) := by
            have h := legsStep_skip_notlanded prev seq cur hld
            rwa [hseq1] at h
          rw [legsRun_cons_skip rs hstep]
          have hcf : cur.flying = true := cur_flying_of_step hg hld
          have hih := ih cur (seq ++ [cur])
            (Or.inr ⟨List.getLast?_concat seq, hcf⟩)
          refine ⟨?_, fun hcontra => absurd hcontra hsne⟩
          have h1 := hih.1
          have hconc : (seq ++ [cur]).isEmpty = false := isEmpty_concat seq cur
          rw [hconc] at h1
          simp only [Bool.false_eq_true, if_false] at h1
          rw [htarget]
          rw [List.append_assoc] at h1
          exact h1
      | true =>
        cases hld : landed prev cur with
        | true =>
          have hseq1 : legsSeq1 prev seq cur = seq := legsSeq1_grounded hg
          have hstep : legsStep prev seq cur = (some seq, []) := by
            have h := legsStep_emit prev seq cur hld (by rw [hseq1]; exact hne)
            rwa [hseq1] at h
          rw [legsRun_cons_emit rs hstep]
          have hih := ih cur [] (Or.inl rfl)
          refine ⟨?_, fun hcontra => absurd hcontra hsne⟩
          rw [dcat_cons, dropSharedHead_none, hlast, htarget]
          have h2 : List.Sublist (dcat (some prev) (legsRun cur [] rs))
              (cur :: rs) := by
            refine (dcat_sublist_none _ _).trans ?_
            simpa using hih.1
          exact List.Sublist.append_left h2 seq
        | false =>
          exfalso
          obtain ⟨hpg, -⟩ := both_grounded_of_isgr hg hld
          rw [flying_eq_not_grounded, hpg] at hfly
          simp at hfly

/-- C3 (amended): for every input sequence, the concatenation of the emitted
legs in which each leg drops its first position whenever it equals the last
position of the preceding leg is a subsequence of the input: consecutive
legs may share exactly their boundary position (the landing that closes one
leg seeds the next), and apart from these shared boundaries no position is
invented or duplicated. -/
theorem c3_boundary_subsequence (P : List Position) :
    List.Sublist (dcat none (machineLegs P)) P := by
  cases P with
  | nil => simp [machineLegs, legsRun, dcat]
  | cons p ps =>
    have h := (legsRun_dcat ps p [] (Or.inl rfl)).1
    simpa using h

/-! ## Claim C8: snapshot selection of the time-varying jet set -/

/-- C8, counterexample: the two snapshot dates 2022-01-03 and 2022-01-01 are
equally distant from the target 2022-01-02, and `closest_date`, fed the
snapshots in this iteration order, returns the EARLIER date 2022-01-01 — the
claimed tie-break towards the later snapshot date does not hold. -/
theorem c8_counterexample :
    dayDist ⟨2022, 1, 3⟩ ⟨2022, 1, 2⟩ = dayDist ⟨2022, 1, 1⟩ ⟨2022, 1, 2⟩ ∧
      closest_date [⟨2022, 1, 3⟩, ⟨2022, 1, 1⟩] ⟨2022, 1, 2⟩ = ⟨2022, 1, 1⟩ ∧
      dateLtb ⟨2022, 1, 1⟩ ⟨2022, 1, 3⟩ = true := by
  refine ⟨?_, ?_, ?_⟩ <;> decide

theorem closest_date_foldl (t : Date) :
    ∀ (ds : List Date) (a : Date),
      ∃ pre post,
        a :: ds = pre ++
          (ds.foldl (fun x b => if dayDist x t < dayDist b t then x else b) a)
            :: post ∧
        (∀ y ∈ pre,
          dayDist (ds.foldl (fun x b => if dayDist x t < dayDist b t then x else b) a) t
            ≤ dayDist y t) ∧
        (∀ y ∈ post,
          dayDist (ds.foldl (fun x b => if dayDist x t < dayDist b t then x else b) a) t
            < dayDist y t) := by
  intro ds
  induction ds with
  | nil =>
    intro a
    exact ⟨[], [], rfl, by simp, by simp⟩
  | cons b tl ih =>
    intro a
    simp only [List.foldl_cons]
    by_cases hab : dayDist a t < dayDist b t
    · rw [if_pos hab]
      obtain ⟨pre, post, hdec, hpre, hpost⟩ := ih a
      set r := List.foldl (fun x b => if dayDist x t < dayDist b t then x else b) a tl
        with hr
      cases pre with
      | nil =>
        simp only [List.nil_append] at hdec
        injection hdec with ha htl
        refine ⟨[], b :: tl, by rw [← ha]; rfl, by simp, ?_⟩
        intro y hy
        rcases List.mem_cons.mp hy with rfl | hy
        · rw [← ha]
          exact hab
        · exact hpost y (htl ▸ hy)
      | cons p0 pre2 =>
        simp only [List.cons_append] at hdec
        injection hdec with ha htl
        subst ha
        refine ⟨a :: b :: pre2, post, ?_, ?_, hpost⟩
        · simp only [List.cons_append]
          rw [← htl]
        · intro y hy
          have hmem_a : a ∈ a :: pre2 := List.mem_cons_self a pre2
          rcases List.mem_cons.mp hy with rfl | hy
          · exact hpre y hmem_a
          · rcases List.mem_cons.mp hy with rfl | hy2
            · exact le_of_lt (lt_of_le_of_lt (hpre a hmem_a) hab)
            · exact hpre y (List.mem_cons_of_mem _ hy2)
    · rw [if_neg hab]
      obtain ⟨pre, post, hdec, hpre, hpost⟩ := ih b
      set r := List.foldl (fun x b => if dayDist x t < dayDist b t then x else b) b tl
        with hr
      cases pre with
      | nil =>
        simp only [List.nil_append] at hdec
        refine ⟨[a], post, ?_, ?_, hpost⟩
        · simp only [List.cons_append, List.nil_append]
          rw [← hdec]
        · intro y hy
          have hya : y = a := List.mem_singleton.mp hy
          subst hya
          injection hdec with hb htl
          rw [← hb]
          exact not_lt.mp hab
      | cons p0 pre2 =>
        simp only [List.cons_append] at hdec
        injection hdec with hb htl
        subst hb
        refine ⟨a :: b :: pre2, post, ?_, ?_, hpost⟩
        · simp only [List.cons_append]
          rw [← htl]
        · intro y hy
          have hmem_b : b ∈ b :: pre2 := List.mem_cons_self b pre2
          rcases List.mem_cons.mp hy with rfl | hy
          · exact le_trans (hpre b hmem_b) (not_lt.mp hab)
          · rcases List.mem_cons.mp hy with rfl | hy2
            · exact hpre y hmem_b
            · exact hpre y (List.mem_cons_of_mem _ hy2)

theorem closest_date_spec (ds : List Date) (t : Date) :
    ∃ pre post,
      (⟨1900, 1, 1⟩ : Date) :: ds = pre ++ closest_date ds t :: post ∧
      (∀ y ∈ pre, dayDist (closest_date ds t) t ≤ dayDist y t) ∧
      (∀ y ∈ post, dayDist (closest_date ds t) t < dayDist y t) :=
  closest_date_foldl t ds ⟨1900, 1, 1⟩

/-- C8 (amended): an entry `((icao, m), aircraft)` belongs to the
time-varying jet set exactly when `m` is the first day of a month of one of
the requested years, `m` is strictly before the first of the current month,
and `(icao, aircraft)` belongs to the filtered aircraft set of the snapshot
found at `closest_date` for `m` — so every eligible month is assigned
exactly that snapshot's aircraft set, no more and no less; `closest_date`,
however, returns the occurrence, latest in iteration order, of the minimal
absolute day distance among the sentinel 1900-01-01 followed by the snapshot
dates — a tie is broken towards the later *iterated* date (the snapshot-date
set is a hash map, so iteration order is unspecified), not towards the later
calendar date. -/
theorem c8_snapshot_selection (α : Type) (snapshots : List (Date × List (ℕ × α)))
    (years : List ℤ) (now : Date) (key : ℕ × Date) (a : α) :
    ((key, a) ∈ private_jets_in_month α snapshots years now ↔
      (key.2.year ∈ years ∧ 1 ≤ key.2.month ∧ key.2.month ≤ 12 ∧
        key.2.day = 1 ∧ dateLtb key.2 ⟨now.year, now.month, 1⟩ = true ∧
        ∃ s, snapshots.find?
            (fun s => s.1 = closest_date (snapshots.map Prod.fst) key.2) =
              some s ∧
          (key.1, a) ∈ s.2)) ∧
    (∀ (ds : List Date) (t : Date), ∃ pre post,
      (⟨1900, 1, 1⟩ : Date) :: ds = pre ++ closest_date ds t :: post ∧
      (∀ y ∈ pre, dayDist (closest_date ds t) t ≤ dayDist y t) ∧
      (∀ y ∈ post, dayDist (closest_date ds t) t < dayDist y t)) := by
  refine ⟨⟨?_, ?_⟩, fun ds t => closest_date_spec ds t⟩
  · intro h
    simp only [private_jets_in_month] at h
    rw [List.mem_flatMap] at h
    obtain ⟨m, hm, hmem⟩ := h
    rw [List.mem_filter] at hm
    obtain ⟨hgrid, hmlt⟩ := hm
    rw [List.mem_flatMap] at hgrid
    obtain ⟨y, hy, hmy⟩ := hgrid
    rw [List.mem_map] at hmy
    obtain ⟨k, hk, hkm⟩ := hmy
    rw [List.mem_range] at hk
    cases hfind : snapshots.find?
        (fun s => s.1 = closest_date (snapshots.map Prod.fst) m) with
    | none =>
      rw [hfind] at hmem
      simp at hmem
    | some s =>
      rw [hfind] at hmem
      simp only [List.mem_map] at hmem
      obtain ⟨ia, hia, hiaeq⟩ := hmem
      obtain ⟨hkey, ha⟩ := Prod.mk.injEq .. ▸ hiaeq
      have hkey2 : key.2 = m := by rw [← hkey]
      have hkey1 : key.1 = ia.1 := by rw [← hkey]
      have hfields : m.year = y ∧ m.month = k + 1 ∧ m.day = 1 := by
        rw [← hkm]
        exact ⟨rfl, rfl, rfl⟩
      refine ⟨?_, ?_, ?_, ?_, hkey2 ▸ hmlt, ?_⟩
      · rw [hkey2, hfields.1]
        exact hy
      · rw [hkey2, hfields.2.1]
        omega
      · rw [hkey2, hfields.2.1]
        omega
      · rw [hkey2]
        exact hfields.2.2
      · refine ⟨s, ?_, ?_⟩
        · rw [hkey2]
          exact hfind
        · have hpair : (key.1, a) = ia := by
            rw [hkey1, ← ha]
          exact hpair ▸ hia
  · rintro ⟨hyear, hm1, hm2, hday, hlt, s, hfind, hia⟩
    simp only [private_jets_in_month]
    rw [List.mem_flatMap]
    refine ⟨key.2, ?_, ?_⟩
    · rw [List.mem_filter]
      refine ⟨?_, hlt⟩
      rw [List.mem_flatMap]
      refine ⟨key.2.year, hyear, ?_⟩
      rw [List.mem_map]
      refine ⟨key.2.month - 1, List.mem_range.mpr (by omega), ?_⟩
      have h3 : key.2.month - 1 + 1 = key.2.month := by omega
      rw [h3, ← hday]
    · rw [hfind]
      simp only [List.mem_map]
      exact ⟨(key.1, a), hia, rfl⟩

/-- C8, witness: the characterization applied to a single snapshot
2023-01-01 holding one aircraft, one requested year 2022, and today
2023-06-15; the forward direction is exercised at a concrete member. -/
theorem c8_snapshot_selection_witness :
    ((5, (⟨2022, 1, 1⟩ : Date)), 77) ∈
        private_jets_in_month ℕ [(⟨2023, 1, 1⟩, [(5, 77)])] [2022] ⟨2023, 6, 15⟩ ∧
    ((5, (⟨2022, 1, 1⟩ : Date)).2.year ∈ ([2022] : List ℤ) ∧
      1 ≤ (5, (⟨2022, 1, 1⟩ : Date)).2.month ∧
      (5, (⟨2022, 1, 1⟩ : Date)).2.month ≤ 12 ∧
      (5, (⟨2022, 1, 1⟩ : Date)).2.day = 1 ∧
      dateLtb (5, (⟨2022, 1, 1⟩ : Date)).2 ⟨(2023 : ℤ), 6, 1⟩ = true ∧
      ∃ s, ([((⟨2023, 1, 1⟩ : Date), [(5, 77)])]).find?
          (fun s => s.1 =
            closest_date (([((⟨2023, 1, 1⟩ : Date), [(5, 77)])]).map Prod.fst)
              (5, (⟨2022, 1, 1⟩ : Date)).2) = some s ∧
        ((5, (⟨2022, 1, 1⟩ : Date)).1, 77) ∈ s.2) := by
  have hmem : ((5, (⟨2022, 1, 1⟩ : Date)), 77) ∈
      private_jets_in_month ℕ [(⟨2023, 1, 1⟩, [(5, 77)])] [2022] ⟨2023, 6, 15⟩ := by
    decide
  exact ⟨hmem,
    (c8_snapshot_selection ℕ [(⟨2023, 1, 1⟩, [(5, 77)])] [2022] ⟨2023, 6, 15⟩
      (5, ⟨2022, 1, 1⟩) 77).1.mp hmem⟩

end PrivateJets
